import Mathlib

/-!
Verification of the balance-mutation / ledger core and the holdings
calculator of the trading backend (trading_app: models.py, serializers.py,
views.py).

Monetary values are DecimalField columns in the source; they are modelled
as exact rationals, which matches fixed-point decimal arithmetic for
addition, subtraction and multiplication and models division exactly.
-/

namespace TradingApp

/-- The six ledger kinds of Transaction.TRANSACTION_TYPES (models.py). -/
inductive TransactionType
  | deposit
  | withdrawal
  | buy
  | sell
  | dividend
  | fee
deriving DecidableEq

/-- One ledger row (models.Transaction). The id field models the
auto-increment primary key the database assigns on insert. -/
structure Transaction where
  id : Nat
  transaction_type : TransactionType
  debit : ℚ
  credit : ℚ
  descr : String
  balance_after : ℚ
deriving DecidableEq

/-- The per-user state the ledger core touches (models.User restricted to
balance, plus the user ledger rows). nextId models the database
auto-increment counter for transaction primary keys. -/
structure Account where
  balance : ℚ
  transactions : List Transaction
  nextId : Nat
deriving DecidableEq

/-- TransactionCreateSerializer.create (serializers.py lines 129-142):
reads the current balance, adds credit - debit, saves the new balance on
the user, and inserts one Transaction row stamped with balance_after equal
to the updated balance. Returns the updated account and the new row. -/
def recordTransaction (acct : Account) (ty : TransactionType)
    (debit credit : ℚ) (descr : String) : Account × Transaction :=
  let net_amount := credit - debit
  let newBalance := acct.balance + net_amount
  let entry : Transaction :=
    { id := acct.nextId
      transaction_type := ty
      debit := debit
      credit := credit
      descr := descr
      balance_after := newBalance }
  ({ balance := newBalance
     transactions := acct.transactions ++ [entry]
     nextId := acct.nextId + 1 }, entry)

/-- C1: for debit and credit each nonnegative, recordTransaction sets the
balance to B + credit - debit and appends exactly one ledger entry whose
debit and credit equal the inputs and whose balance_after equals the new
balance. -/
theorem recordTransaction_applies_net_and_appends
    (acct : Account) (ty : TransactionType) (debit credit : ℚ)
    (descr : String) (hd : 0 ≤ debit) (hc : 0 ≤ credit) :
    (recordTransaction acct ty debit credit descr).1.balance
        = acct.balance + credit - debit ∧
    (recordTransaction acct ty debit credit descr).1.transactions
        = acct.transactions ++ [(recordTransaction acct ty debit credit descr).2] ∧
    (recordTransaction acct ty debit credit descr).2.debit = debit ∧
    (recordTransaction acct ty debit credit descr).2.credit = credit ∧
    (recordTransaction acct ty debit credit descr).2.balance_after
        = (recordTransaction acct ty debit credit descr).1.balance := by
  refine ⟨by simp [recordTransaction]; ring, ?_, rfl, rfl, rfl⟩
  simp [recordTransaction]

/-- Witness for C1 at the worked example of the spec: balance 500.00,
withdrawal of debit 50.00 and credit 0 yields balance 450.00 and an entry
with debit 50, credit 0 and balance_after 450. -/
theorem recordTransaction_applies_net_and_appends_witness :
    (recordTransaction ⟨500, [], 0⟩ .withdrawal 50 0 "ATM").1.balance = 450 ∧
    (recordTransaction ⟨500, [], 0⟩ .withdrawal 50 0 "ATM").2.debit = 50 ∧
    (recordTransaction ⟨500, [], 0⟩ .withdrawal 50 0 "ATM").2.credit = 0 ∧
    (recordTransaction ⟨500, [], 0⟩ .withdrawal 50 0 "ATM").2.balance_after = 450 := by
  have h := recordTransaction_applies_net_and_appends ⟨500, [], 0⟩ .withdrawal
    50 0 "ATM" (by norm_num) (by norm_num)
  obtain ⟨h1, h2, h3, h4, h5⟩ := h
  refine ⟨?_, h3, h4, ?_⟩
  · rw [h1]; norm_num
  · rw [h5, h1]; norm_num

/-- C9: the balance computation of recordTransaction never inspects the
transaction kind: two calls differing only in transaction_type produce the
same balance and the same balance_after; in particular a withdrawal row
with credit 100 and debit 0 still raises the balance by 100. -/
theorem balance_independent_of_transaction_type
    (acct : Account) (t1 t2 : TransactionType) (d c : ℚ) (s : String) :
    (recordTransaction acct t1 d c s).1.balance
        = (recordTransaction acct t2 d c s).1.balance ∧
    (recordTransaction acct t1 d c s).2.balance_after
        = (recordTransaction acct t2 d c s).2.balance_after ∧
    (recordTransaction acct .withdrawal 0 100 s).1.balance
        = acct.balance + 100 := by
  refine ⟨rfl, rfl, ?_⟩
  simp [recordTransaction]

/-- C5: the service imposes no floor at zero: when debit exceeds credit
plus the current balance it still writes the (negative) new balance and
appends the ledger row, with balance_after equal to that negative value. -/
theorem recordTransaction_allows_negative_balance
    (acct : Account) (ty : TransactionType) (d c : ℚ) (s : String)
    (h : acct.balance + c < d) :
    (recordTransaction acct ty d c s).1.balance < 0 ∧
    (recordTransaction acct ty d c s).1.transactions
        = acct.transactions ++ [(recordTransaction acct ty d c s).2] ∧
    (recordTransaction acct ty d c s).2.balance_after
        = acct.balance + c - d := by
  refine ⟨?_, by simp [recordTransaction], by simp [recordTransaction]; ring⟩
  simp only [recordTransaction]
  linarith

/-- Witness for C5: balance 10, debit 50, credit 0 drives the balance to
-40 and the entry is still created. -/
theorem recordTransaction_allows_negative_balance_witness :
    ((10:ℚ) + 0 < 50) ∧
    (recordTransaction ⟨10, [], 0⟩ .fee 50 0 "fee").1.balance < 0 ∧
    (recordTransaction ⟨10, [], 0⟩ .fee 50 0 "fee").2.balance_after = 10 + 0 - 50 := by
  have h := recordTransaction_allows_negative_balance ⟨10, [], 0⟩ .fee 50 0 "fee"
    (by norm_num)
  exact ⟨by norm_num, h.1, h.2.2⟩

/-- C6: recordTransaction is not idempotent: the same call issued twice in
sequence creates two ledger rows with distinct primary keys and moves the
balance by 2 * (credit - debit) in total. -/
theorem recordTransaction_not_idempotent
    (acct : Account) (ty : TransactionType) (d c : ℚ) (s : String) :
    (recordTransaction acct ty d c s).2
        ≠ (recordTransaction (recordTransaction acct ty d c s).1 ty d c s).2 ∧
    (recordTransaction (recordTransaction acct ty d c s).1 ty d c s).1.transactions
        = acct.transactions ++ [(recordTransaction acct ty d c s).2,
            (recordTransaction (recordTransaction acct ty d c s).1 ty d c s).2] ∧
    (recordTransaction (recordTransaction acct ty d c s).1 ty d c s).1.balance
        = acct.balance + 2 * (c - d) := by
  refine ⟨?_, ?_, ?_⟩
  · intro h
    have hid := congrArg Transaction.id h
    simp [recordTransaction] at hid
  · simp [recordTransaction]
  · simp [recordTransaction]; ring

/-- One argument tuple for a balance-mutation call. -/
structure Call where
  ty : TransactionType
  debit : ℚ
  credit : ℚ
  descr : String

/-- A sequence of recordTransaction calls applied in order to one
account, keeping only the resulting account state. -/
def applyCalls (acct : Account) (calls : List Call) : Account :=
  calls.foldl (fun a c => (recordTransaction a c.ty c.debit c.credit c.descr).1) acct

/-- A fresh account: balance 0 and no ledger rows (models.User balance
default 0.00). -/
def initialAccount : Account :=
  { balance := 0, transactions := [], nextId := 0 }

theorem applyCalls_balance (calls : List Call) : ∀ acct : Account,
    (applyCalls acct calls).balance
      = acct.balance + (calls.map fun c => c.credit - c.debit).sum := by
  induction calls with
  | nil => intro acct; simp [applyCalls]
  | cons c cs ih =>
      intro acct
      simp only [applyCalls, List.foldl_cons, List.map_cons, List.sum_cons]
      rw [show List.foldl _ _ cs = applyCalls ((recordTransaction acct c.ty c.debit c.credit c.descr).1) cs from rfl]
      rw [ih]
      simp [recordTransaction]
      ring

theorem applyCalls_last_balance_after (calls : List Call) : ∀ acct : Account,
    (∀ e, acct.transactions.getLast? = some e → e.balance_after = acct.balance) →
    ∀ e, (applyCalls acct calls).transactions.getLast? = some e →
      e.balance_after = (applyCalls acct calls).balance := by
  induction calls with
  | nil => intro acct h e; exact h e
  | cons c cs ih =>
      intro acct h
      simp only [applyCalls, List.foldl_cons]
      rw [show List.foldl _ _ cs = applyCalls ((recordTransaction acct c.ty c.debit c.credit c.descr).1) cs from rfl]
      apply ih
      intro e he
      simp only [recordTransaction, List.getLast?_concat] at he ⊢
      rw [← Option.some_inj.mp he]

theorem applyCalls_transactions_length (calls : List Call) : ∀ acct : Account,
    (applyCalls acct calls).transactions.length
      = acct.transactions.length + calls.length := by
  induction calls with
  | nil => intro acct; simp [applyCalls]
  | cons c cs ih =>
      intro acct
      simp only [applyCalls, List.foldl_cons]
      rw [show List.foldl _ _ cs = applyCalls ((recordTransaction acct c.ty c.debit c.credit c.descr).1) cs from rfl]
      rw [ih]
      simp [recordTransaction]
      omega

/-- C2: starting from balance 0, any finite sequence of recordTransaction
calls leaves the balance equal to the sum of credit - debit over the
calls, and (when at least one call was made) equal to the balance_after of
the last ledger row created. -/
theorem applyCalls_balance_invariant (calls : List Call) :
    (applyCalls initialAccount calls).balance
      = (calls.map fun c => c.credit - c.debit).sum ∧
    (calls ≠ [] →
      ∃ e, (applyCalls initialAccount calls).transactions.getLast? = some e ∧
        e.balance_after = (applyCalls initialAccount calls).balance) := by
  constructor
  · rw [applyCalls_balance]; simp [initialAccount]
  · intro hne
    have hlen : (applyCalls initialAccount calls).transactions.length = calls.length := by
      rw [applyCalls_transactions_length]; simp [initialAccount]
    have hnonnil : (applyCalls initialAccount calls).transactions ≠ [] := by
      intro hcon
      rw [hcon] at hlen
      exact hne (List.eq_nil_of_length_eq_zero hlen.symm)
    obtain ⟨e, he⟩ := Option.isSome_iff_exists.mp (List.getLast?_isSome.mpr hnonnil)
    exact ⟨e, he, applyCalls_last_balance_after calls initialAccount
      (by intro e' he'; simp [initialAccount] at he') e he⟩

/-- Witness for C2: a deposit of 100 followed by a withdrawal of 30 leaves
balance 70, and the last ledger row carries balance_after 70. -/
theorem applyCalls_balance_invariant_witness :
    (applyCalls initialAccount
        [⟨.deposit, 0, 100, "d"⟩, ⟨.withdrawal, 30, 0, "w"⟩]).balance = 70 ∧
    ∃ e, (applyCalls initialAccount
        [⟨.deposit, 0, 100, "d"⟩, ⟨.withdrawal, 30, 0, "w"⟩]).transactions.getLast?
          = some e ∧
      e.balance_after = (applyCalls initialAccount
        [⟨.deposit, 0, 100, "d"⟩, ⟨.withdrawal, 30, 0, "w"⟩]).balance := by
  have h := applyCalls_balance_invariant
    [⟨.deposit, 0, 100, "d"⟩, ⟨.withdrawal, 30, 0, "w"⟩]
  refine ⟨?_, h.2 (by simp)⟩
  rw [h.1]
  norm_num

/-- One stock position (models.Holding). quantity is a
PositiveIntegerField, hence a natural number; both prices are DecimalField
columns with a MinValueValidator of 0.01. -/
structure Holding where
  stock : String
  quantity : Nat
  buying_price : ℚ
  current_price : ℚ
deriving DecidableEq

/-- Holding.total_invested (models.py): quantity * buying_price. -/
def Holding.total_invested (h : Holding) : ℚ :=
  (h.quantity : ℚ) * h.buying_price

/-- Holding.current_value (models.py): quantity * current_price. -/
def Holding.current_value (h : Holding) : ℚ :=
  (h.quantity : ℚ) * h.current_price

/-- Holding.profit_loss (models.py): current_value - total_invested. -/
def Holding.profit_loss (h : Holding) : ℚ :=
  h.current_value - h.total_invested

/-- Holding.profit_loss_percentage (models.py lines 157-162): the ratio
formula guarded by total_invested > 0, returning 0 otherwise. -/
def Holding.profit_loss_percentage (h : Holding) : ℚ :=
  if h.total_invested > 0 then h.profit_loss / h.total_invested * 100 else 0

/-- C3: with a nonnegative buying price (the column validator enforces at
least 0.01), profit_loss_percentage is 0 when total_invested is 0 and is
profit_loss / total_invested * 100 otherwise; as a total function on
rationals it can neither divide by zero nor produce an infinite value. -/
theorem profit_loss_percentage_safe (h : Holding) (hbp : 0 ≤ h.buying_price) :
    (h.total_invested = 0 → h.profit_loss_percentage = 0) ∧
    (h.total_invested ≠ 0 →
      h.profit_loss_percentage = h.profit_loss / h.total_invested * 100) := by
  have hnn : 0 ≤ h.total_invested :=
    mul_nonneg (by positivity) hbp
  constructor
  · intro h0
    simp [Holding.profit_loss_percentage, h0]
  · intro hne
    have hpos : h.total_invested > 0 := lt_of_le_of_ne hnn (Ne.symm hne)
    simp [Holding.profit_loss_percentage, hpos]

/-- Witness for C3 at the worked example of the spec: quantity 10, buying
price 20, current price 25 gives invested 200 and percentage 25; a zero
quantity gives percentage 0. -/
theorem profit_loss_percentage_safe_witness :
    (0:ℚ) ≤ (20:ℚ) ∧
    (Holding.mk "AAPL" 10 20 25).profit_loss_percentage = 25 ∧
    (Holding.mk "ZERO" 0 20 25).profit_loss_percentage = 0 := by
  refine ⟨by norm_num, ?_, ?_⟩
  · have h := (profit_loss_percentage_safe (Holding.mk "AAPL" 10 20 25)
      (by norm_num)).2 (by norm_num [Holding.total_invested])
    rw [h]
    norm_num [Holding.profit_loss, Holding.current_value, Holding.total_invested]
  · exact (profit_loss_percentage_safe (Holding.mk "ZERO" 0 20 25)
      (by norm_num)).1 (by norm_num [Holding.total_invested])

/-- HoldingViewSet.summary (views.py lines 230-243): sum of
total_invested over the queryset. -/
def summary_total_invested (hs : List Holding) : ℚ :=
  (hs.map Holding.total_invested).sum

/-- HoldingViewSet.summary: sum of current_value over the queryset. -/
def summary_total_current_value (hs : List Holding) : ℚ :=
  (hs.map Holding.current_value).sum

/-- HoldingViewSet.summary: total_profit_loss is the difference of the
two aggregate sums, not a sum of per-holding differences. -/
def summary_total_profit_loss (hs : List Holding) : ℚ :=
  summary_total_current_value hs - summary_total_invested hs

/-- C4: for any list of holdings the aggregate total_profit_loss equals
the sum of the individual profit_loss values. -/
theorem total_profit_loss_eq_sum_profit_loss (hs : List Holding) :
    summary_total_profit_loss hs = (hs.map Holding.profit_loss).sum := by
  induction hs with
  | nil => simp [summary_total_profit_loss, summary_total_invested,
      summary_total_current_value]
  | cons h t ih =>
      simp only [summary_total_profit_loss, summary_total_invested,
        summary_total_current_value, List.map_cons, List.sum_cons] at ih ⊢
      rw [← ih]
      simp [Holding.profit_loss]
      ring

/-- HoldingViewSet.profitable (views.py lines 200-210): the rows where
quantity * current_price > quantity * buying_price, strictly. -/
def profitableHoldings (hs : List Holding) : List Holding :=
  hs.filter fun h => (h.quantity : ℚ) * h.current_price > (h.quantity : ℚ) * h.buying_price

/-- HoldingViewSet.losing (views.py lines 212-222): the rows where
quantity * current_price < quantity * buying_price, strictly. -/
def losingHoldings (hs : List Holding) : List Holding :=
  hs.filter fun h => (h.quantity : ℚ) * h.current_price < (h.quantity : ℚ) * h.buying_price

/-- C10: both listings compare strictly, so a holding whose current price
equals its buying price, or whose quantity is 0, appears in neither
listing, and no holding ever appears in both. -/
theorem profitable_losing_strict (hs : List Holding) (h : Holding) :
    (h.current_price = h.buying_price ∨ h.quantity = 0 →
      h ∉ profitableHoldings hs ∧ h ∉ losingHoldings hs) ∧
    ¬(h ∈ profitableHoldings hs ∧ h ∈ losingHoldings hs) := by
  constructor
  · intro hcase
    constructor
    · intro hmem
      rw [profitableHoldings, List.mem_filter] at hmem
      have := of_decide_eq_true hmem.2
      rcases hcase with heq | hq
      · rw [heq] at this; exact lt_irrefl _ this
      · rw [hq] at this; simp at this
    · intro hmem
      rw [losingHoldings, List.mem_filter] at hmem
      have := of_decide_eq_true hmem.2
      rcases hcase with heq | hq
      · rw [heq] at this; exact lt_irrefl _ this
      · rw [hq] at this; simp at this
  · rintro ⟨hp, hl⟩
    rw [profitableHoldings, List.mem_filter] at hp
    rw [losingHoldings, List.mem_filter] at hl
    exact absurd (of_decide_eq_true hp.2) (not_lt_of_lt (of_decide_eq_true hl.2))

/-- Witness for C10: a break-even holding is in neither listing. -/
theorem profitable_losing_strict_witness :
    Holding.mk "FLAT" 10 20 20 ∉ profitableHoldings [Holding.mk "FLAT" 10 20 20] ∧
    Holding.mk "FLAT" 10 20 20 ∉ losingHoldings [Holding.mk "FLAT" 10 20 20] := by
  exact (profitable_losing_strict [Holding.mk "FLAT" 10 20 20]
    (Holding.mk "FLAT" 10 20 20)).1 (Or.inl rfl)

/-- HoldingCreateSerializer.create together with the model validation of
Holding (models.py lines 115-133): quantity is a PositiveIntegerField, so
the generated bound is quantity >= 0 (zero is permitted); both prices
carry MinValueValidator 0.01; unique_together on (user, stock) rejects a
duplicate symbol for the same user. On success the new row is appended
and returned. -/
def createHolding (existing : List Holding) (stock : String)
    (quantity : Int) (buying_price current_price : ℚ) :
    Except String (List Holding × Holding) :=
  if quantity < 0 then
    .error "quantity is below the minimum of 0"
  else if buying_price < 1/100 then
    .error "buying_price is below the minimum of 0.01"
  else if current_price < 1/100 then
    .error "current_price is below the minimum of 0.01"
  else if ∃ h0 ∈ existing, h0.stock = stock then
    .error "user and stock must make a unique set"
  else
    let h : Holding := ⟨stock, quantity.toNat, buying_price, current_price⟩
    .ok (existing ++ [h], h)

/-- Counterexample to C7 as stated: quantity 0 satisfies quantity <= 0,
yet createHolding succeeds and creates the row, because the
PositiveIntegerField bound is 0, not 1. -/
theorem createHolding_zero_quantity_accepted :
    (0:Int) ≤ 0 ∧
    createHolding [] "AAPL" 0 1 1
      = .ok ([Holding.mk "AAPL" 0 1 1], Holding.mk "AAPL" 0 1 1) := by
  refine ⟨le_refl 0, ?_⟩
  norm_num [createHolding]

/-- C7 amended: createHolding fails, creating no holding, whenever
quantity < 0 or either price is below 0.01; it succeeds and returns the
appended row whenever quantity >= 0, both prices are at least 0.01 and the
stock is not already held (quantity 0 is accepted because the
PositiveIntegerField column permits zero). -/
theorem createHolding_validation (existing : List Holding) (stock : String)
    (q : Int) (bp cp : ℚ) :
    ((q < 0 ∨ bp < 1/100 ∨ cp < 1/100) →
      ∃ msg, createHolding existing stock q bp cp = .error msg) ∧
    (0 ≤ q → 1/100 ≤ bp → 1/100 ≤ cp →
      (∀ h0 ∈ existing, h0.stock ≠ stock) →
      createHolding existing stock q bp cp
        = .ok (existing ++ [Holding.mk stock q.toNat bp cp],
            Holding.mk stock q.toNat bp cp)) := by
  constructor
  · intro hcase
    by_cases hq : q < 0
    · refine ⟨"quantity is below the minimum of 0", ?_⟩
      simp only [createHolding]
      rw [if_pos hq]
    · by_cases hbp : bp < 1/100
      · refine ⟨"buying_price is below the minimum of 0.01", ?_⟩
        simp only [createHolding]
        rw [if_neg hq, if_pos hbp]
      · by_cases hcp : cp < 1/100
        · refine ⟨"current_price is below the minimum of 0.01", ?_⟩
          simp only [createHolding]
          rw [if_neg hq, if_neg hbp, if_pos hcp]
        · rcases hcase with h1 | h2 | h3
          · exact absurd h1 hq
          · exact absurd h2 hbp
          · exact absurd h3 hcp
  · intro hq hbp hcp huniq
    have h1 : ¬ q < 0 := not_lt.mpr hq
    have h2 : ¬ bp < 1/100 := not_lt.mpr hbp
    have h3 : ¬ cp < 1/100 := not_lt.mpr hcp
    have h4 : ¬ ∃ h0 ∈ existing, h0.stock = stock := by
      rintro ⟨h0, hmem, heq⟩
      exact huniq h0 hmem heq
    simp only [createHolding]
    rw [if_neg h1, if_neg h2, if_neg h3, if_neg h4]

/-- Witness for C7 amended: a valid purchase succeeds; a negative
quantity is rejected. -/
theorem createHolding_validation_witness :
    createHolding [] "AAPL" 5 10 12
      = .ok ([Holding.mk "AAPL" 5 10 12], Holding.mk "AAPL" 5 10 12) ∧
    ∃ msg, createHolding [] "NEG" (-1) 10 12 = .error msg := by
  constructor
  · exact (createHolding_validation [] "AAPL" 5 10 12).2
      (by norm_num) (by norm_num) (by norm_num) (by simp)
  · exact (createHolding_validation [] "NEG" (-1) 10 12).1 (Or.inl (by norm_num))

/-- One element of the performance_data list built by
PortfolioViewSet.performance (views.py lines 281-317). The float
conversion applied there is modelled as the exact rational value. -/
structure PerfEntry where
  stock : String
  profit_loss : ℚ
  profit_loss_percentage : ℚ
deriving DecidableEq

/-- The dictionary built for one holding in the performance loop. -/
def perfEntryOf (h : Holding) : PerfEntry :=
  ⟨h.stock, h.profit_loss, h.profit_loss_percentage⟩

/-- The comparator of the descending stable sort performed by
performance_data.sort with reverse set: an entry precedes another when
its percentage is at least as large. -/
def perfGe (a b : PerfEntry) : Bool :=
  b.profit_loss_percentage ≤ a.profit_loss_percentage

/-- performance_data after the sort: the per-holding entries ordered by
descending profit_loss_percentage (a stable merge sort, matching the
stable sort of the source). -/
def performanceData (hs : List Holding) : List PerfEntry :=
  (hs.map perfEntryOf).mergeSort perfGe

/-- best_performer in the response: the first element after sorting. -/
def best_performer (hs : List Holding) : Option PerfEntry :=
  (performanceData hs).head?

/-- worst_performer in the response: the last element after sorting. -/
def worst_performer (hs : List Holding) : Option PerfEntry :=
  (performanceData hs).getLast?

theorem pairwise_head_max {l : List PerfEntry}
    (hp : l.Pairwise fun a b => b.profit_loss_percentage ≤ a.profit_loss_percentage)
    {b : PerfEntry} (hb : l.head? = some b) :
    ∀ x ∈ l, x.profit_loss_percentage ≤ b.profit_loss_percentage := by
  cases l with
  | nil => cases hb
  | cons a as =>
      have hba : b = a := by simpa using hb.symm
      subst hba
      intro x hx
      rcases List.mem_cons.mp hx with hxa | hxas
      · rw [hxa]
      · exact (List.pairwise_cons.mp hp).1 x hxas

theorem pairwise_getLast_min : ∀ (l : List PerfEntry),
    (l.Pairwise fun a b => b.profit_loss_percentage ≤ a.profit_loss_percentage) →
    ∀ w, l.getLast? = some w →
      ∀ x ∈ l, w.profit_loss_percentage ≤ x.profit_loss_percentage := by
  intro l
  induction l with
  | nil => intro _ w hw; cases hw
  | cons a as ih =>
      intro hp w hw x hx
      cases as with
      | nil =>
          have hwa : a = w := by simpa using hw
          have hxa : x = a := by simpa using hx
          rw [hxa, hwa]
      | cons b bs =>
          have hw2 : (b :: bs).getLast? = some w := by
            simpa using hw
          have hptail := (List.pairwise_cons.mp hp).2
          have hwmem : w ∈ b :: bs := List.mem_of_getLast?_eq_some hw2
          rcases List.mem_cons.mp hx with hxa | hxtail
          · rw [hxa]
            exact (List.pairwise_cons.mp hp).1 w hwmem
          · exact ih hptail w hw2 x hxtail

theorem perfGe_trans (a b c : PerfEntry) (h1 : perfGe a b) (h2 : perfGe b c) :
    perfGe a c := by
  simp only [perfGe, decide_eq_true_eq] at h1 h2 ⊢
  exact le_trans h2 h1

theorem perfGe_total (a b : PerfEntry) : perfGe a b || perfGe b a := by
  simp only [perfGe, Bool.or_eq_true, decide_eq_true_eq]
  exact le_total b.profit_loss_percentage a.profit_loss_percentage

/-- C8: for a non-empty holdings list, the performance listing is a
permutation of the per-holding entries sorted in descending order of
profit_loss_percentage, best_performer is its first element and attains
the maximal percentage, and worst_performer is its last element and
attains the minimal percentage. -/
theorem performance_sorted_best_worst (hs : List Holding) (hne : hs ≠ []) :
    (performanceData hs).Pairwise
      (fun a b => b.profit_loss_percentage ≤ a.profit_loss_percentage) ∧
    (performanceData hs).Perm (hs.map perfEntryOf) ∧
    (∃ b, best_performer hs = some b ∧ ∀ x ∈ hs.map perfEntryOf,
        x.profit_loss_percentage ≤ b.profit_loss_percentage) ∧
    (∃ w, worst_performer hs = some w ∧ ∀ x ∈ hs.map perfEntryOf,
        w.profit_loss_percentage ≤ x.profit_loss_percentage) := by
  have hperm : (performanceData hs).Perm (hs.map perfEntryOf) :=
    List.mergeSort_perm (hs.map perfEntryOf) perfGe
  have hsortedB : (performanceData hs).Pairwise fun a b => perfGe a b :=
    List.sorted_mergeSort perfGe_trans perfGe_total (hs.map perfEntryOf)
  have hsorted : (performanceData hs).Pairwise
      fun a b => b.profit_loss_percentage ≤ a.profit_loss_percentage :=
    hsortedB.imp (by intro a b hab; simpa [perfGe] using hab)
  have hlen : (performanceData hs).length = hs.length := by
    rw [hperm.length_eq, List.length_map]
  have hne2 : performanceData hs ≠ [] := by
    intro hcon
    rw [hcon] at hlen
    exact hne (List.eq_nil_of_length_eq_zero hlen.symm)
  refine ⟨hsorted, hperm, ?_, ?_⟩
  · obtain ⟨b, hb⟩ := Option.isSome_iff_exists.mp (List.head?_isSome.mpr hne2)
    refine ⟨b, hb, ?_⟩
    intro x hx
    exact pairwise_head_max hsorted hb x (hperm.mem_iff.mpr hx)
  · obtain ⟨w, hw⟩ := Option.isSome_iff_exists.mp (List.getLast?_isSome.mpr hne2)
    refine ⟨w, hw, ?_⟩
    intro x hx
    exact pairwise_getLast_min (performanceData hs) hsorted w hw x
      (hperm.mem_iff.mpr hx)

/-- Witness for C8 on two holdings, one up 25 percent and one down 50
percent: the sorted listing exists, its first element dominates every
percentage and its last element is dominated by every percentage. -/
theorem performance_sorted_best_worst_witness :
    ([Holding.mk "B" 10 20 10, Holding.mk "A" 10 20 25] : List Holding) ≠ [] ∧
    (∃ b, best_performer [Holding.mk "B" 10 20 10, Holding.mk "A" 10 20 25]
        = some b ∧
      ∀ x ∈ [Holding.mk "B" 10 20 10, Holding.mk "A" 10 20 25].map perfEntryOf,
        x.profit_loss_percentage ≤ b.profit_loss_percentage) ∧
    (∃ w, worst_performer [Holding.mk "B" 10 20 10, Holding.mk "A" 10 20 25]
        = some w ∧
      ∀ x ∈ [Holding.mk "B" 10 20 10, Holding.mk "A" 10 20 25].map perfEntryOf,
        w.profit_loss_percentage ≤ x.profit_loss_percentage) :=
  ⟨by simp,
    (performance_sorted_best_worst
      [Holding.mk "B" 10 20 10, Holding.mk "A" 10 20 25] (by simp)).2.2.1,
    (performance_sorted_best_worst
      [Holding.mk "B" 10 20 10, Holding.mk "A" 10 20 25] (by simp)).2.2.2⟩

end TradingApp
